import Mathlib

/-!
Shallow embedding of `remind` (src/remind/remind.py): notebook/note
addressing and disambiguation (`find_note`, `Notebook.find/search/discover/
sift/empty/delete`, `_delete_note`) and the template engine
(`Template._resolve/_configure/_tokenize/render/delete`).

Filesystem state is passed explicitly: a directory listing is the list of
its entries in the (arbitrary) order `os.listdir` yields them.  Python
strings are modelled as `String`/`List Char`.
-/

namespace Remind

/-! ## Python string primitives used by the source -/

/-- Model of splitting a char list on every occurrence of a separator
character (the full, unlimited split underlying Python `str.rsplit`). -/
def splitOnChar (ch : Char) : List Char → List (List Char)
  | [] => [[]]
  | c :: cs =>
    if c = ch then [] :: splitOnChar ch cs
    else
      match splitOnChar ch cs with
      | [] => [[c]]
      | p :: ps => (c :: p) :: ps

/-- Joins parts with a separator character; used to rebuild the left-over
head chunk of a right split. -/
def joinWithChar (ch : Char) : List (List Char) → List Char
  | [] => []
  | [p] => p
  | p :: ps => p ++ ch :: joinWithChar ch ps

/-- Model of Python `s.rsplit(ch, 2)`: at most two splits taken from the
right, so the result keeps the last two full-split parts and joins the
remaining head parts back together. -/
def pyRsplit2 (ch : Char) (cs : List Char) : List (List Char) :=
  let ps := splitOnChar ch cs
  if ps.length ≤ 3 then ps
  else joinWithChar ch (ps.take (ps.length - 2)) :: ps.drop (ps.length - 2)

/-- Model of Python `lst[-2:]`. -/
def lastTwo (l : List (List Char)) : List (List Char) :=
  l.drop (l.length - 2)

/-- Model of Python `'/' in note`. -/
def slashIn (s : String) : Bool :=
  s.data.contains '/'

/-- Model of Python `str.strip()`: drop leading and trailing whitespace. -/
def pyStrip (cs : List Char) : List Char :=
  ((cs.dropWhile Char.isWhitespace).reverse.dropWhile Char.isWhitespace).reverse

/-! ## Filesystem model for the notes root -/

/-- One entry of the notes-root directory as `os.listdir` reports it:
its name, whether it is a directory, and (for directories) the names in
its own listing, again in `os.listdir` order. -/
structure Entry where
  name : String
  isDir : Bool
  files : List String
  deriving DecidableEq

/-- Model of `check_directory` (`os.path.exists`) applied to `tld/name`:
some entry of that name exists, file or directory. -/
def check_directory (root : List Entry) (name : String) : Bool :=
  root.any (fun e => e.name = name)

/-- The directory entry of a notebook, when one exists. -/
def findEntry (root : List Entry) (nb : String) : Option Entry :=
  root.find? (fun e => e.name = nb && e.isDir)

/-- Listing of the notebook directory named `nb` (empty when no such
directory exists, in which case no file path below it exists either). -/
def notebookFiles (root : List Entry) (nb : String) : List String :=
  match findEntry root nb with
  | some e => e.files
  | none => []

/-- Model of `Notebook.find`: `os.path.isfile(tld/nb/note)`; a `Note` is
identified by its notebook name and its own name. -/
def nbFind (root : List Entry) (nb note : String) : Option (String × String) :=
  if (notebookFiles root nb).contains note then some (nb, note) else none

/-- Model of Python `d.startswith(".")`: the first character is a dot. -/
def dotPrefixed (s : String) : Bool :=
  match s.data with
  | '.' :: _ => true
  | _ => false

/-- Model of `Notebook.discover`: walk the root listing in order, skip
non-directories, dot-prefixed names and the literal name `templates`,
keep entries passing the optional filter.  The source does not sort. -/
def discover (root : List Entry) (filt : Option (String → Bool)) : List Entry :=
  match root with
  | [] => []
  | e :: es =>
    if !e.isDir then discover es filt
    else if dotPrefixed e.name || e.name = "templates" then discover es filt
    else if (match filt with | none => true | some f => f e.name) then
      e :: discover es filt
    else discover es filt

/-- Model of `Notebook.search`: collect `find` hits over every discovered
notebook. -/
def search (root : List Entry) (note : String) : List (String × String) :=
  (discover root none).filterMap (fun e => nbFind root e.name note)

/-- Lexicographic comparison of char lists by code point, the order
Python `sorted` applies to strings. -/
def lexLe : List Char → List Char → Bool
  | [], _ => true
  | _ :: _, [] => false
  | a :: as, b :: bs =>
    if a.toNat = b.toNat then lexLe as bs else Nat.blt a.toNat b.toNat

/-- Python string comparison `a <= b`. -/
def strLe (a b : String) : Bool :=
  lexLe a.data b.data

/-- Model of `Notebook.sift`: `sorted(os.listdir(path))`, an ascending
sort of the notebook listing. -/
def sift (nb : Entry) : List String :=
  nb.files.insertionSort (fun a b => strLe a b = true)

/-- Observable outcome of `find_note`, separating the normal returns
(`found`, `absent` for a `None` return on the hint path) from the
`sys.exit(1)` terminations and the would-be unpack crash. -/
inductive Outcome where
  | found (nb note : String)
  | absent
  | notFound
  | ambiguous
  | notebookMissing
  | malformed
  deriving DecidableEq

/-- The bare-name branch of `find_note` (no truthy notebook hint): when
the raw name holds a slash, re-interpret the last two segments of
`rsplit('/', 2)` as `(notebook, note)` — unpacking would raise were there
fewer than two — then search every notebook by the note name.  Note the
extracted notebook is never used afterwards. -/
def bareResolve (root : List Entry) (note : String) : Outcome :=
  let step : Option String :=
    if slashIn note then
      match lastTwo (pyRsplit2 '/' note.data) with
      | [_, b] => some (String.mk b)
      | _ => none
    else some note
  match step with
  | none => .malformed
  | some n =>
    match search root n with
    | [] => .notFound
    | [m] => .found m.1 m.2
    | _ => .ambiguous

/-- The hint branch of `find_note`: `Notebook(tld, nb)` exits when no
entry of that name exists (`_assert_existence`), else `find` yields the
note or `None`. -/
def hintResolve (root : List Entry) (nb note : String) : Outcome :=
  if check_directory root nb then
    match nbFind root nb note with
    | some m => .found m.1 m.2
    | none => .absent
  else .notebookMissing

/-- Model of `find_note(tld, note, notebook)`; a `None` or empty-string
hint is falsy in Python, so it selects the bare branch. -/
def find_note (root : List Entry) (note : String) (notebook : Option String) :
    Outcome :=
  match notebook with
  | some nb => if nb.isEmpty then bareResolve root note else hintResolve root nb note
  | none => bareResolve root note

/-! ## Template engine -/

/-- Characters matched by the character class of the token regex,
Python `[\s\w]`: letters, digits, underscore, whitespace. -/
def isWordSpace (c : Char) : Bool :=
  c.isAlphanum || c = '_' || c.isWhitespace

/-- A leftmost match of the token regex at the head of the input: two
open braces, a maximal run of `[\s\w]` characters, two close braces.
Yields the matched token together with the remaining input. -/
def matchTok (l : List Char) : Option (List Char × List Char) :=
  match l with
  | c1 :: c2 :: rest =>
    if c1 = '{' && c2 = '{' then
      match rest.dropWhile isWordSpace with
      | d1 :: d2 :: rest2 =>
        if d1 = '}' && d2 = '}' then
          some ('{' :: '{' :: (rest.takeWhile isWordSpace ++ ['}', '}']), rest2)
        else none
      | _ => none
    else none
  | _ => none

/-- One scan step of `re.split` with the capturing token pattern, with a
fuel argument for structural recursion (`fuel` at least the input length
is always enough, since a match consumes at least four characters and a
failure advances one).  `acc` holds the current literal span reversed. -/
def splitTokGo : Nat → List Char → List Char → List (List Char)
  | _, acc, [] => [acc.reverse]
  | 0, acc, rest => [acc.reverse ++ rest]
  | fuel + 1, acc, c :: cs =>
    match matchTok (c :: cs) with
    | some (tok, rest) => acc.reverse :: tok :: splitTokGo fuel [] rest
    | none => splitTokGo fuel (c :: acc) cs

/-- Model of `re.split("({{[\\s\\w]*}})", text)`: alternating literal
spans and captured tokens, in document order. -/
def pyReSplit (cs : List Char) : List (List Char) :=
  splitTokGo cs.length [] cs

/-- Whether some position of the text starts a token match, i.e. the text
holds a substring matching the token pattern at all. -/
def hasTok : List Char → Bool
  | [] => false
  | c :: cs => (matchTok (c :: cs)).isSome || hasTok cs

/-- Model of `Template._tokenize`: the split of the template text when it
is set and non-empty (Python truthiness), else no pieces at all. -/
def tokenize (t : Option (List Char)) : List (List Char) :=
  match t with
  | some cs => if cs.isEmpty then [] else pyReSplit cs
  | none => []

/-- Model of `token.startswith("{{")`. -/
def looksTok (p : List Char) : Bool :=
  match p with
  | '{' :: '{' :: _ => true
  | _ => false

/-- Whether a piece is, in its entirety, a token match of the pattern
(a captured placeholder, as opposed to a literal span). -/
def isTokMatch (p : List Char) : Bool :=
  matchTok p = some (p, [])

/-- Model of `token[2:-2].strip()`: the trimmed identifier slice of a
piece that begins with two open braces. -/
def trimIdent (p : List Char) : List Char :=
  pyStrip ((p.drop 2).take (p.length - 4))

/-- Model of the body of the render loop for one piece.  The dynamic
unit is collapsed into `R`: `R ident = some v` when `getattr` finds a
callable of that name and the call returns `v` normally, `none` when the
lookup or the call raises (the bare `except: pass` keeps the literal). -/
def renderPiece (R : List Char → Option (List Char)) (p : List Char) :
    List Char :=
  if looksTok p then
    match R (trimIdent p) with
    | some v => v
    | none => p
  else p

/-- Model of `Template.render`: tokenize the resolved text and join the
processed pieces. -/
def renderT (t : Option (List Char)) (R : List Char → Option (List Char)) :
    List Char :=
  ((tokenize t).map (renderPiece R)).flatten

/-- Template storage (`<templatesDir>/<nb>/<nb>.txt` and `.py`): which
notebook names have each file, the static text, and the loaded dynamic
unit of a notebook, collapsed as in `renderPiece`. -/
structure TemplateStore where
  hasTxt : String → Bool
  hasPy : String → Bool
  txt : String → List Char
  run : String → (List Char → Option (List Char))

/-- Model of `Template._configure`: succeeds only when both the static
file and the dynamic unit of that notebook name are present, yielding
the pair to install. -/
def templateConfigure (ts : TemplateStore) (nb : String) :
    Option (List Char × (List Char → Option (List Char))) :=
  if ts.hasTxt nb && ts.hasPy nb then some (ts.txt nb, ts.run nb) else none

/-- Python `Template.create` ends without a return statement, so its
value is `None`; its truthiness, which gates the re-configure retry in
`_resolve`, is therefore always false. -/
def createResultTruthy : Bool := false

/-- Model of `Template._resolve`: configure the notebook-specific pair;
the interactive-create retry is dead (see `createResultTruthy`); fall
back to the notebook literally named `default`; else stay unset. -/
def resolveTemplate (ts : TemplateStore) (nb : String) (promptCreate : Bool) :
    Option (List Char × (List Char → Option (List Char))) :=
  let c1 := templateConfigure ts nb
  let c2 :=
    if c1.isNone && promptCreate && createResultTruthy then
      templateConfigure ts nb
    else c1
  match c2 with
  | some c => some c
  | none => templateConfigure ts "default"

/-- Rendering through a resolution result: an unresolved template leaves
`_template` as `None`, so `render` yields the empty text. -/
def renderResolved
    (o : Option (List Char × (List Char → Option (List Char)))) : List Char :=
  match o with
  | some (t, r) => renderT (some t) r
  | none => renderT none (fun _ => none)

/-! ## Deletion cascade -/

/-- State touched by `_delete_note`: the root listing and the set of
notebook names owning a subdirectory under the templates directory. -/
structure FS where
  root : List Entry
  tmpl : List String
  deriving DecidableEq

/-- Model of `os.remove(tld/nb/note)`: drop the file from the notebook
directory's listing. -/
def eraseNoteFile (root : List Entry) (nb note : String) : List Entry :=
  root.map (fun e =>
    if e.name = nb && e.isDir then { e with files := e.files.erase note } else e)

/-- Model of `shutil.rmtree(tld/nb)`: the entry of that name is gone. -/
def removeEntry (root : List Entry) (nb : String) : List Entry :=
  root.filter (fun e => !(e.name = nb))

/-- Model of `_delete_note` (with no Git adapter): find the note in the
given notebook or exit (`none`); on confirmation remove the file; when
the notebook directory became empty, remove it and — `Template.delete` —
its template subdirectory if present and confirmed. -/
def delete_note (fs : FS) (nb note : String)
    (confirmDel confirmTmpl : Bool) : Option FS :=
  match nbFind fs.root nb note with
  | none => none
  | some _ =>
    if !confirmDel then some fs
    else
      let root1 := eraseNoteFile fs.root nb note
      if notebookFiles root1 nb = [] then
        let root2 := removeEntry root1 nb
        let tmpl2 :=
          if fs.tmpl.contains nb && confirmTmpl then
            fs.tmpl.filter (fun t => !(t = nb))
          else fs.tmpl
        some ⟨root2, tmpl2⟩
      else some ⟨root1, fs.tmpl⟩

/-! ## Spec-side definitions and concrete fixtures -/

/-- The spec-side reading of one render step, from the spec's words: a
piece that is a placeholder token (a full match of the pattern) is
replaced by its resolved value, a literal span is emitted verbatim.  It
differs from `renderPiece` (the code) in the guard — full token match
against mere `startswith("{{")` — and in yielding nothing when an
assumed-resolving placeholder fails. -/
def specSubst (R : List Char → Option (List Char)) (p : List Char) :
    List Char :=
  if isTokMatch p then (R (trimIdent p)).getD [] else p

/-- Executable check that a list of names is in ascending order under a
comparison, used to state the spec's sortedness requirement. -/
def sortedBy (le : String → String → Bool) : List String → Bool
  | [] => true
  | [_] => true
  | a :: b :: rest => le a b && sortedBy le (b :: rest)

/-- The root of the spec's disambiguation scenario: notebooks `work` and
`personal`, each holding a note `standup.md`. -/
def scenarioRoot : List Entry :=
  [⟨"work", true, ["standup.md"]⟩, ⟨"personal", true, ["standup.md"]⟩]

/-- A template store with no files at all. -/
def emptyStore : TemplateStore :=
  ⟨fun _ => false, fun _ => false, fun _ => [], fun _ _ => none⟩

/-- A one-notebook, one-note state with a template subdirectory for the
notebook. -/
def exampleNotebook : Entry := ⟨"nb", true, ["n1"]⟩

/-- State holding only `exampleNotebook` and its template directory. -/
def exampleFS : FS := ⟨[exampleNotebook], ["nb"]⟩

/-! ## Helper lemmas: token matching -/

theorem takeWhile_append_of_all {α : Type} {p : α → Bool} {xs ys : List α}
    (h : ∀ a ∈ xs, p a = true) :
    (xs ++ ys).takeWhile p = xs ++ ys.takeWhile p := by
  induction xs with
  | nil => simp
  | cons a xs ih =>
    have ha : p a = true := h a (by simp)
    simp only [List.cons_append, List.takeWhile_cons, ha, if_true]
    rw [ih (fun b hb => h b (by simp [hb]))]

theorem dropWhile_append_of_all {α : Type} {p : α → Bool} {xs ys : List α}
    (h : ∀ a ∈ xs, p a = true) :
    (xs ++ ys).dropWhile p = ys.dropWhile p := by
  induction xs with
  | nil => simp
  | cons a xs ih =>
    have ha : p a = true := h a (by simp)
    simp only [List.cons_append, List.dropWhile_cons, ha, if_true]
    exact ih (fun b hb => h b (by simp [hb]))

theorem matchTok_eq_some {l t r : List Char} (h : matchTok l = some (t, r)) :
    ∃ rest, l = '{' :: '{' :: rest ∧
      rest.dropWhile isWordSpace = '}' :: '}' :: r ∧
      t = '{' :: '{' :: (rest.takeWhile isWordSpace ++ ['}', '}']) := by
  unfold matchTok at h
  split at h
  case _ c1 c2 rest =>
    split at h
    case isTrue hb =>
      obtain ⟨e1, e2⟩ : c1 = '{' ∧ c2 = '{' := by simpa using hb
      subst e1; subst e2
      split at h
      case _ d1 d2 rest2 hdrop =>
        split at h
        case isTrue hb2 =>
          obtain ⟨f1, f2⟩ : d1 = '}' ∧ d2 = '}' := by simpa using hb2
          subst f1; subst f2
          obtain ⟨ht, hr⟩ : _ ∧ rest2 = r := by simpa using h
          subst hr
          exact ⟨rest, rfl, hdrop, ht.symm⟩
        case isFalse => cases h
      case _ => cases h
    case isFalse => cases h
  case _ => cases h

theorem matchTok_append {l t r : List Char} (h : matchTok l = some (t, r)) :
    t ++ r = l := by
  obtain ⟨rest, hl, hdrop, ht⟩ := matchTok_eq_some h
  have hsplit : rest.takeWhile isWordSpace ++ rest.dropWhile isWordSpace =
      rest := List.takeWhile_append_dropWhile isWordSpace rest
  rw [hdrop] at hsplit
  subst hl ht
  simpa using hsplit

theorem matchTok_length {l t r : List Char} (h : matchTok l = some (t, r)) :
    4 ≤ t.length := by
  obtain ⟨rest, hl, hdrop, ht⟩ := matchTok_eq_some h
  subst ht
  simp

theorem matchTok_looksTok {l t r : List Char} (h : matchTok l = some (t, r)) :
    looksTok t = true := by
  obtain ⟨rest, hl, hdrop, ht⟩ := matchTok_eq_some h
  subst ht
  rfl

theorem matchTok_self {l t r : List Char} (h : matchTok l = some (t, r)) :
    matchTok t = some (t, []) := by
  obtain ⟨rest, hl, hdrop, ht⟩ := matchTok_eq_some h
  have hall : ∀ a ∈ rest.takeWhile isWordSpace, isWordSpace a = true :=
    fun a ha => List.mem_takeWhile_imp ha
  have hdw : (rest.takeWhile isWordSpace ++ ['}', '}']).dropWhile
      isWordSpace = ['}', '}'] := by
    rw [dropWhile_append_of_all hall]; decide
  have htw : (rest.takeWhile isWordSpace ++ ['}', '}']).takeWhile
      isWordSpace = rest.takeWhile isWordSpace := by
    rw [takeWhile_append_of_all hall]
    rw [show List.takeWhile isWordSpace ['}', '}'] = [] from by decide]
    simp
  subst ht
  simp [matchTok, hdw, htw]

/-! ## Helper lemmas: the split and render -/

theorem splitTokGo_flatten {fuel : Nat} : ∀ {acc cs : List Char},
    cs.length ≤ fuel → (splitTokGo fuel acc cs).flatten = acc.reverse ++ cs := by
  induction fuel with
  | zero =>
    intro acc cs hlen
    have : cs = [] := List.length_eq_zero.mp (Nat.le_zero.mp hlen)
    subst this
    simp [splitTokGo]
  | succ fuel ih =>
    intro acc cs hlen
    match cs with
    | [] => simp [splitTokGo]
    | c :: cs =>
      cases hm : matchTok (c :: cs) with
      | some pr =>
        obtain ⟨tok, rest⟩ := pr
        have happ := matchTok_append hm
        have hlen4 := matchTok_length hm
        have hrest : rest.length ≤ fuel := by
          have := congrArg List.length happ
          simp at this hlen
          omega
        simp only [splitTokGo, hm, List.flatten_cons]
        rw [ih hrest]
        simp [← happ]
      | none =>
        simp only [splitTokGo, hm]
        rw [ih (by simpa using Nat.le_of_succ_le_succ (by simpa using hlen))]
        simp

theorem splitTokGo_noTok {fuel : Nat} : ∀ {acc cs : List Char},
    cs.length ≤ fuel → hasTok cs = false →
    splitTokGo fuel acc cs = [acc.reverse ++ cs] := by
  induction fuel with
  | zero =>
    intro acc cs hlen _
    have : cs = [] := List.length_eq_zero.mp (Nat.le_zero.mp hlen)
    subst this
    simp [splitTokGo]
  | succ fuel ih =>
    intro acc cs hlen hno
    match cs with
    | [] => simp [splitTokGo]
    | c :: cs =>
      have hpair : (matchTok (c :: cs)).isSome = false ∧ hasTok cs = false := by
        simpa [hasTok] using hno
      cases hm : matchTok (c :: cs) with
      | some pr => rw [hm] at hpair; simp at hpair
      | none =>
        simp only [splitTokGo, hm]
        rw [ih (by simpa using Nat.le_of_succ_le_succ (by simpa using hlen))
          hpair.2]
        simp

theorem isTokMatch_looksTok {p : List Char} (h : isTokMatch p = true) :
    looksTok p = true := by
  have hm : matchTok p = some (p, []) := by
    simpa [isTokMatch] using h
  exact matchTok_looksTok hm

theorem isTokMatch_hasTok {p : List Char} (h : isTokMatch p = true) :
    hasTok p = true := by
  have hm : matchTok p = some (p, []) := by
    simpa [isTokMatch] using h
  match p with
  | [] => cases hm
  | c :: cs => simp [hasTok, hm]

theorem renderPiece_eq_specSubst {R : List Char → Option (List Char)}
    {p : List Char} (hclean : looksTok p = true → isTokMatch p = true)
    (hres : isTokMatch p = true → (R (trimIdent p)).isSome = true) :
    renderPiece R p = specSubst R p := by
  by_cases hl : looksTok p = true
  · have htk := hclean hl
    obtain ⟨v, hv⟩ := Option.isSome_iff_exists.mp (hres htk)
    simp [renderPiece, specSubst, hl, htk, hv]
  · have htk : isTokMatch p = false := by
      cases htk : isTokMatch p with
      | false => rfl
      | true => exact absurd (isTokMatch_looksTok htk) hl
    simp [renderPiece, specSubst, hl, htk]

/-! ## Helper lemmas: split on separator, discover, search -/

theorem splitOnChar_ne_nil {ch : Char} {cs : List Char} :
    splitOnChar ch cs ≠ [] := by
  match cs with
  | [] => simp [splitOnChar]
  | c :: cs =>
    unfold splitOnChar
    split
    · simp
    · split <;> simp

theorem two_le_splitOnChar_length {ch : Char} {cs : List Char}
    (h : ch ∈ cs) : 2 ≤ (splitOnChar ch cs).length := by
  induction cs with
  | nil => cases h
  | cons c cs ih =>
    unfold splitOnChar
    split
    case isTrue =>
      have := @splitOnChar_ne_nil ch cs
      have : 1 ≤ (splitOnChar ch cs).length :=
        Nat.one_le_iff_ne_zero.mpr (fun h0 => this (List.length_eq_zero.mp h0))
      simp
      omega
    case isFalse hne =>
      have hmem : ch ∈ cs := by
        cases List.mem_cons.mp h with
        | inl he => exact absurd he.symm hne
        | inr hm => exact hm
      have h2 := ih hmem
      split
      case _ heq => rw [heq] at h2; simp at h2
      case _ p ps heq => rw [heq] at h2; simpa using h2

theorem two_le_pyRsplit2_length {ch : Char} {cs : List Char} (h : ch ∈ cs) :
    2 ≤ (pyRsplit2 ch cs).length := by
  have h2 := two_le_splitOnChar_length h
  unfold pyRsplit2
  by_cases hle : (splitOnChar ch cs).length ≤ 3
  · simpa [hle] using h2
  · simp [hle]
    omega

theorem lastTwo_length {l : List (List Char)} (h : 2 ≤ l.length) :
    (lastTwo l).length = 2 := by
  simp [lastTwo]
  omega

/-- Characterization of `discover` as a filter of the root listing: it
keeps, in listing order, exactly the directories that are not
dot-prefixed, not named `templates`, and pass the optional filter. -/
theorem discover_eq_filter (root : List Entry) (filt : Option (String → Bool)) :
    discover root filt = root.filter (fun e =>
      e.isDir && !(dotPrefixed e.name) && !(e.name = "templates") &&
        (match filt with | none => true | some f => f e.name)) := by
  induction root with
  | nil => rfl
  | cons e es ih =>
    unfold discover
    rw [List.filter_cons]
    by_cases hd : e.isDir
    · by_cases hdot : dotPrefixed e.name
      · simp [hd, hdot, ih]
      · by_cases htpl : e.name = "templates"
        · simp [hd, hdot, htpl, ih]
        · cases filt with
          | none => simp [hd, hdot, htpl, ih]
          | some f =>
            by_cases hf : f e.name
            · simp [hd, hdot, htpl, hf, ih]
            · simp [hd, hdot, htpl, hf, ih]
    · simp [hd, ih]

theorem mem_discover_mem_root {root : List Entry}
    {filt : Option (String → Bool)} {e : Entry} (h : e ∈ discover root filt) :
    e ∈ root := by
  rw [discover_eq_filter] at h
  exact List.mem_filter.mp h |>.1

theorem nbFind_eq_some {root : List Entry} {nb note : String}
    {m : String × String} (h : nbFind root nb note = some m) :
    m = (nb, note) := by
  unfold nbFind at h
  split at h
  · simpa using h.symm
  · cases h

/-- The matches of `search` are, in discovery order, one per discovered
notebook whose directory holds a file of the searched name. -/
theorem search_eq_filter_map (root : List Entry) (note : String) :
    search root note =
      ((discover root none).filter
        (fun e => (nbFind root e.name note).isSome)).map
        (fun e => (e.name, note)) := by
  unfold search
  induction discover root none with
  | nil => rfl
  | cons e es ih =>
    rw [List.filterMap_cons, List.filter_cons]
    cases hm : nbFind root e.name note with
    | none => simpa [hm] using ih
    | some m =>
      have := nbFind_eq_some hm
      subst this
      simpa [hm] using ih

/-! ## Helper lemmas: the string order of `sorted` -/

theorem lexLe_total : ∀ as bs : List Char,
    lexLe as bs = true ∨ lexLe bs as = true := by
  intro as
  induction as with
  | nil => intro bs; left; rfl
  | cons a as ih =>
    intro bs
    cases bs with
    | nil => right; rfl
    | cons b bs =>
      by_cases heq : a.toNat = b.toNat
      · cases ih bs with
        | inl h => left; simpa [lexLe, heq] using h
        | inr h => right; simpa [lexLe, heq.symm] using h
      · have hne : ¬ b.toNat = a.toNat := fun h => heq h.symm
        simp only [lexLe, heq, hne, if_false, Nat.blt_eq]
        omega

theorem lexLe_trans : ∀ as bs cs : List Char, lexLe as bs = true →
    lexLe bs cs = true → lexLe as cs = true := by
  intro as
  induction as with
  | nil => intro bs cs _ _; rfl
  | cons a as ih =>
    intro bs cs h1 h2
    cases bs with
    | nil => simp [lexLe] at h1
    | cons b bs =>
      cases cs with
      | nil => simp [lexLe] at h2
      | cons c cs =>
        by_cases hab : a.toNat = b.toNat <;> by_cases hbc : b.toNat = c.toNat
        · have hac : a.toNat = c.toNat := hab.trans hbc
          rw [lexLe, if_pos hab] at h1
          rw [lexLe, if_pos hbc] at h2
          rw [lexLe, if_pos hac]
          exact ih bs cs h1 h2
        · rw [lexLe, if_neg hbc, Nat.blt_eq] at h2
          have hac : ¬ a.toNat = c.toNat := by omega
          rw [lexLe, if_neg hac, Nat.blt_eq]
          omega
        · rw [lexLe, if_neg hab, Nat.blt_eq] at h1
          have hac : ¬ a.toNat = c.toNat := by omega
          rw [lexLe, if_neg hac, Nat.blt_eq]
          omega
        · rw [lexLe, if_neg hab, Nat.blt_eq] at h1
          rw [lexLe, if_neg hbc, Nat.blt_eq] at h2
          have hac : ¬ a.toNat = c.toNat := by omega
          rw [lexLe, if_neg hac, Nat.blt_eq]
          omega

theorem char_toNat_inj {a b : Char} (h : a.toNat = b.toNat) : a = b := by
  have hv : a.val = b.val := by
    have h2 : a.val.toNat = b.val.toNat := h
    exact UInt32.toNat.inj h2
  exact Char.eq_of_val_eq hv

theorem lexLe_antisymm : ∀ as bs : List Char, lexLe as bs = true →
    lexLe bs as = true → as = bs := by
  intro as
  induction as with
  | nil =>
    intro bs _ h2
    cases bs with
    | nil => rfl
    | cons b bs => simp [lexLe] at h2
  | cons a as ih =>
    intro bs h1 h2
    cases bs with
    | nil => simp [lexLe] at h1
    | cons b bs =>
      by_cases hab : a.toNat = b.toNat
      · have hba : b.toNat = a.toNat := hab.symm
        rw [lexLe, if_pos hab] at h1
        rw [lexLe, if_pos hba] at h2
        rw [char_toNat_inj hab, ih bs h1 h2]
      · have hba : ¬ b.toNat = a.toNat := fun h => hab h.symm
        rw [lexLe, if_neg hab, Nat.blt_eq] at h1
        rw [lexLe, if_neg hba, Nat.blt_eq] at h2
        omega

instance : IsTotal String (fun a b => strLe a b = true) :=
  ⟨fun a b => lexLe_total a.data b.data⟩

instance : IsTrans String (fun a b => strLe a b = true) :=
  ⟨fun a b c => lexLe_trans a.data b.data c.data⟩

instance : IsAntisymm String (fun a b => strLe a b = true) :=
  ⟨fun a b h1 h2 => by
    have := lexLe_antisymm a.data b.data h1 h2
    exact String.ext this⟩

/-! ## Claim C1 -/

/-- Claim C1, counterexample: in the spec's scenario root, resolving the
slash-qualified name `work/standup.md` with no separate notebook hint
does not return the note under `work` — it exits with the ambiguity
error, because `find_note` never uses the notebook it extracted from the
slash split and searches every notebook for the bare `standup.md`. -/
theorem C1_counterexample :
    find_note scenarioRoot "work/standup.md" none = Outcome.ambiguous ∧
    Outcome.ambiguous ≠ Outcome.found "work" "standup.md" := by
  exact ⟨by decide, by decide⟩

/-- Claim C1, amended: in the scenario root both the bare name
`standup.md` and the slash-qualified `work/standup.md` fail with the
ambiguity termination; the slash split only rewrites the searched note
name and does not disambiguate. -/
theorem C1_slash_does_not_disambiguate :
    find_note scenarioRoot "standup.md" none = Outcome.ambiguous ∧
    find_note scenarioRoot "work/standup.md" none = Outcome.ambiguous := by
  exact ⟨by decide, by decide⟩

/-! ## Claim C7 -/

/-- Claim C7, counterexample: `discover` keeps the root listing's own
order, so a root listed as `b`, `a` (both plain notebook directories)
yields the unsorted sequence `b`, `a`. -/
theorem C7_counterexample :
    (discover [⟨"b", true, []⟩, ⟨"a", true, []⟩] none).map Entry.name =
      ["b", "a"] ∧
    sortedBy strLe ((discover [⟨"b", true, []⟩, ⟨"a", true, []⟩] none).map
      Entry.name) = false := by
  exact ⟨by decide, by decide⟩

/-- Claim C7, amended: `discover` returns, in directory-listing order
(not sorted), exactly the root entries that are directories, are not
dot-prefixed, are not named `templates`, and pass the optional name
filter. -/
theorem C7_discover_is_filter (root : List Entry)
    (filt : Option (String → Bool)) :
    discover root filt = root.filter (fun e =>
      e.isDir && !(dotPrefixed e.name) && !(e.name = "templates") &&
        (match filt with | none => true | some f => f e.name)) :=
  discover_eq_filter root filt

/-! ## Claim C8 -/

/-- Claim C8: `sift` lists a notebook's entries in ascending
lexicographic order — its output is sorted, is a permutation of the
directory listing, and is identical for any two listings that are
permutations of each other (creation order is irrelevant). -/
theorem C8_sift_sorted (e e2 : Entry) (hperm : e.files.Perm e2.files) :
    List.Sorted (fun a b => strLe a b = true) (sift e) ∧
    (sift e).Perm e.files ∧ sift e = sift e2 := by
  refine ⟨List.sorted_insertionSort _ _, List.perm_insertionSort _ _, ?_⟩
  have p1 : (sift e).Perm (sift e2) :=
    ((List.perm_insertionSort _ e.files).trans hperm).trans
      (List.perm_insertionSort _ e2.files).symm
  exact List.eq_of_perm_of_sorted p1 (List.sorted_insertionSort _ _)
    (List.sorted_insertionSort _ _)

/-- Claim C8, witness: two listings of the same three notes in different
creation orders both sift to the same sorted sequence. -/
theorem C8_sift_sorted_witness :
    (["c", "a", "b"] : List String).Perm ["a", "b", "c"] ∧
    sift ⟨"nb", true, ["c", "a", "b"]⟩ = ["a", "b", "c"] ∧
    sift ⟨"nb", true, ["c", "a", "b"]⟩ = sift ⟨"nb", true, ["a", "b", "c"]⟩ := by
  have h := C8_sift_sorted ⟨"nb", true, ["c", "a", "b"]⟩
    ⟨"nb", true, ["a", "b", "c"]⟩ (by decide)
  exact ⟨by decide, by decide, h.2.2⟩

/-! ## Claim C6 -/

/-- Claim C6, counterexample: no raw name containing a path separator
splits into fewer than two segments — `rsplit('/', 2)` of such a name
always yields at least two parts, so the last-two slice has length
exactly two and the malformed-unpack fault posited by the claim cannot
occur. -/
theorem C6_counterexample :
    ¬ ∃ s : String, slashIn s = true ∧
      (lastTwo (pyRsplit2 '/' s.data)).length < 2 := by
  rintro ⟨s, h1, h2⟩
  have hm : '/' ∈ s.data := by
    simpa [slashIn] using h1
  have := lastTwo_length (two_le_pyRsplit2_length hm)
  omega

/-- Claim C6, amended: for every raw name containing a path separator
the last-two slice of the right split has exactly two segments, so
`find_note` without a hint never reaches the malformed-unpack fault. -/
theorem C6_slash_split_total (root : List Entry) (s : String)
    (h : slashIn s = true) :
    (lastTwo (pyRsplit2 '/' s.data)).length = 2 ∧
    find_note root s none ≠ Outcome.malformed := by
  have hm : '/' ∈ s.data := by
    simpa [slashIn] using h
  have hl : (lastTwo (pyRsplit2 '/' s.data)).length = 2 :=
    lastTwo_length (two_le_pyRsplit2_length hm)
  refine ⟨hl, ?_⟩
  rcases hll : lastTwo (pyRsplit2 '/' s.data) with _ | ⟨a, _ | ⟨b, rest⟩⟩
  · rw [hll] at hl; simp at hl
  · rw [hll] at hl; simp at hl
  · have hrest : rest = [] := by
      rw [hll] at hl; simpa using hl
    subst hrest
    intro hcon
    unfold find_note bareResolve at hcon
    rw [h] at hcon
    simp only [if_true, hll] at hcon
    rcases hs : search root (String.mk b) with _ | ⟨m, _ | ⟨m2, ms⟩⟩ <;>
      rw [hs] at hcon <;> simp at hcon

/-- Claim C6, witness for the amended statement at the name `a/b`. -/
theorem C6_slash_split_total_witness :
    slashIn "a/b" = true ∧
    (lastTwo (pyRsplit2 '/' "a/b".data)).length = 2 ∧
    find_note [] "a/b" none ≠ Outcome.malformed := by
  have h := C6_slash_split_total [] "a/b" (by decide)
  exact ⟨by decide, h.1, h.2⟩

/-! ## Claim C10 -/

/-- Claim C10, counterexample: with an explicit hint naming a notebook
that does not exist under the root, `find_note` does not return absent —
the `Notebook` constructor terminates the process with the
missing-notebook error. -/
theorem C10_counterexample :
    find_note [⟨"a", true, ["n"]⟩] "n" (some "b") = Outcome.notebookMissing ∧
    Outcome.notebookMissing ≠ Outcome.absent := by
  exact ⟨by decide, by decide⟩

/-- Claim C10, amended: with a non-empty explicit hint, only the hinted
notebook is consulted — the result is the note exactly when a file of
that name is in the hinted notebook, absent when the hinted notebook
exists without such a file, and the missing-notebook termination when no
entry of the hinted name exists; the cross-notebook outcomes (ambiguity,
not-found) can never occur. -/
theorem C10_hint_resolution (root : List Entry) (nb note : String)
    (hne : nb.isEmpty = false) :
    (check_directory root nb = true →
      (((notebookFiles root nb).contains note = true →
        find_note root note (some nb) = Outcome.found nb note) ∧
       ((notebookFiles root nb).contains note = false →
        find_note root note (some nb) = Outcome.absent))) ∧
    find_note root note (some nb) ≠ Outcome.ambiguous ∧
    find_note root note (some nb) ≠ Outcome.notFound ∧
    (check_directory root nb = false →
      find_note root note (some nb) = Outcome.notebookMissing) := by
  have hfn : find_note root note (some nb) = hintResolve root nb note := by
    simp [find_note, hne]
  rw [hfn]
  unfold hintResolve nbFind
  by_cases hcd : check_directory root nb
  · by_cases hct : (notebookFiles root nb).contains note
    · have hmem : note ∈ notebookFiles root nb := by simpa using hct
      simp [hcd, hmem]
    · have hmem : ¬ note ∈ notebookFiles root nb := by simpa using hct
      simp [hcd, hmem]
  · simp [hcd]

/-- Claim C10, witness for the amended statement: the hinted notebook
`a` exists and holds `n`, so the hint path returns that note and cannot
be ambiguous. -/
theorem C10_hint_resolution_witness :
    ("a" : String).isEmpty = false ∧
    find_note [⟨"a", true, ["n"]⟩] "n" (some "a") = Outcome.found "a" "n" ∧
    find_note [⟨"a", true, ["n"]⟩] "n" (some "a") ≠ Outcome.ambiguous := by
  have h := C10_hint_resolution [⟨"a", true, ["n"]⟩] "a" "n" (by decide)
  exact ⟨by decide, (h.1 (by decide)).1 (by decide), h.2.1⟩

/-! ## Claim C2 -/

/-- Claim C2: resolving a bare note name (no slash, no hint) terminates
with the not-found error when no discovered notebook holds a file of
that name, terminates with the ambiguity error when at least two
discovered notebooks hold one, and returns the unique matching note when
exactly one does. -/
theorem C2_bare_resolution (root : List Entry) (note : String)
    (h : slashIn note = false) :
    (((discover root none).filter
        (fun e => (nbFind root e.name note).isSome)) = [] →
      find_note root note none = Outcome.notFound) ∧
    (2 ≤ ((discover root none).filter
        (fun e => (nbFind root e.name note).isSome)).length →
      find_note root note none = Outcome.ambiguous) ∧
    (∀ e, ((discover root none).filter
        (fun e2 => (nbFind root e2.name note).isSome)) = [e] →
      find_note root note none = Outcome.found e.name note) := by
  have hb : find_note root note none =
      (match search root note with
        | [] => Outcome.notFound
        | [m] => Outcome.found m.1 m.2
        | _ => Outcome.ambiguous) := by
    show bareResolve root note = _
    unfold bareResolve
    simp [h]
  rw [search_eq_filter_map] at hb
  refine ⟨?_, ?_, ?_⟩
  · intro h0
    rw [h0] at hb
    exact hb
  · intro h2
    rcases hl : (discover root none).filter
        (fun e => (nbFind root e.name note).isSome) with _ | ⟨a, _ | ⟨b, rest⟩⟩
    · rw [hl] at h2; simp at h2
    · rw [hl] at h2; simp at h2
    · rw [hl] at hb
      simpa using hb
  · intro e he
    rw [he] at hb
    simpa using hb

/-- Claim C2, witness: in a root where only notebook `a` holds `n`,
resolving the bare `n` returns the note under `a`. -/
theorem C2_bare_resolution_witness :
    slashIn "n" = false ∧
    ((discover [⟨"a", true, ["n"]⟩, ⟨"b", true, []⟩] none).filter
      (fun e2 => (nbFind [⟨"a", true, ["n"]⟩, ⟨"b", true, []⟩] e2.name
        "n").isSome)) = [⟨"a", true, ["n"]⟩] ∧
    find_note [⟨"a", true, ["n"]⟩, ⟨"b", true, []⟩] "n" none =
      Outcome.found "a" "n" := by
  refine ⟨by decide, by decide, ?_⟩
  exact (C2_bare_resolution _ "n" (by decide)).2.2 ⟨"a", true, ["n"]⟩ (by decide)

/-! ## Claim C4 -/

/-- Claim C4: when a piece the renderer treats as a placeholder fails to
resolve (no callable of that name, or the call raises — both collapsed
into the unit answering `none`), the literal placeholder source text is
emitted unchanged and rendering continues with the pieces before and
after it; rendering is total and never aborts on a placeholder
failure. -/
theorem C4_render_fallback (t : List Char)
    (R : List Char → Option (List Char)) (pre post : List (List Char))
    (tok : List Char) (hsplit : tokenize (some t) = pre ++ tok :: post)
    (hlook : looksTok tok = true) (hfail : R (trimIdent tok) = none) :
    renderT (some t) R =
      (pre.map (renderPiece R)).flatten ++ tok ++
        (post.map (renderPiece R)).flatten := by
  unfold renderT
  rw [hsplit]
  simp [renderPiece, hlook, hfail]

/-- Claim C4, witness: the spec's own example — `Hello {{missing_fn}}!`
rendered against a unit defining nothing yields the template text
unchanged, the failed placeholder emitted literally between its
neighbouring spans. -/
theorem C4_render_fallback_witness :
    tokenize (some "Hello {{missing_fn}}!".data) =
      ["Hello ".data] ++ "{{missing_fn}}".data :: ["!".data] ∧
    looksTok "{{missing_fn}}".data = true ∧
    renderT (some "Hello {{missing_fn}}!".data)
        (fun _ => none) =
      (["Hello ".data].map (renderPiece (fun _ => none))).flatten ++
        "{{missing_fn}}".data ++
        (["!".data].map (renderPiece (fun _ => none))).flatten ∧
    renderT (some "Hello {{missing_fn}}!".data) (fun _ => none) =
      "Hello {{missing_fn}}!".data := by
  refine ⟨by decide, by decide, ?_, by decide⟩
  exact C4_render_fallback _ _ _ _ _ (by decide) (by decide) rfl

/-! ## Claim C5 -/

/-- Claim C5: template resolution falls back in two stages — when the
notebook-specific pair (both the static text file and the dynamic unit)
is not fully present, resolution yields exactly what configuring the
notebook literally named `default` yields (the interactive-create retry
never reloads, since `create` returns falsy); and when the `default`
pair is also incomplete, rendering produces the empty string. -/
theorem C5_template_fallback (ts : TemplateStore) (nb : String) (pc : Bool)
    (hm : (ts.hasTxt nb && ts.hasPy nb) = false) :
    resolveTemplate ts nb pc = templateConfigure ts "default" ∧
    ((ts.hasTxt "default" && ts.hasPy "default") = false →
      renderResolved (resolveTemplate ts nb pc) = []) := by
  have hc : templateConfigure ts nb = none := by
    unfold templateConfigure
    rw [hm]
    rfl
  have h1 : resolveTemplate ts nb pc = templateConfigure ts "default" := by
    unfold resolveTemplate
    rw [hc]
    simp [createResultTruthy]
  refine ⟨h1, fun hd => ?_⟩
  have hd2 : templateConfigure ts "default" = none := by
    unfold templateConfigure
    rw [hd]
    rfl
  rw [h1, hd2]
  rfl

/-- Claim C5, witness: with no template files at all, resolving the
`work` template falls through to the (also absent) `default` pair and
rendering yields the empty text. -/
theorem C5_template_fallback_witness :
    (emptyStore.hasTxt "work" && emptyStore.hasPy "work") = false ∧
    resolveTemplate emptyStore "work" false =
      templateConfigure emptyStore "default" ∧
    renderResolved (resolveTemplate emptyStore "work" false) = [] := by
  have h := C5_template_fallback emptyStore "work" false rfl
  exact ⟨rfl, h.1, h.2 rfl⟩

/-! ## Claim C3 -/

/-- Claim C3, counterexample: the text `{{abcd` holds no substring
matching the placeholder pattern, yet rendering it does not return it
unchanged — the render guard fires on any piece beginning with two open
braces, slices out `ab`, and substitutes the unit's answer for it. -/
theorem C3_counterexample :
    hasTok "\x7b\x7babcd".data = false ∧
    renderT (some "\x7b\x7babcd".data)
        (fun cs => if cs = ['a', 'b'] then some ['X'] else none) ≠
      "\x7b\x7babcd".data := by
  exact ⟨by decide, by decide⟩

/-- Claim C3, amended: provided every tokenizer piece that begins with
two open braces is itself a complete placeholder token (no literal span
starts with `{{`), rendering behaves as the claim states — the pieces
reassemble to the text verbatim, a text with no placeholder token
renders to itself unchanged, and when every placeholder resolves the
output is the literal spans interleaved with the substituted values in
document order. -/
theorem C3_render_roundtrip (t : List Char)
    (R : List Char → Option (List Char))
    (hclean : (pyReSplit t).all (fun p => !looksTok p || isTokMatch p) = true)
    (hres : (pyReSplit t).all
      (fun p => !isTokMatch p || (R (trimIdent p)).isSome) = true) :
    (pyReSplit t).flatten = t ∧
    (hasTok t = false → renderT (some t) R = t) ∧
    renderT (some t) R = ((pyReSplit t).map (specSubst R)).flatten := by
  have hc : ∀ p ∈ pyReSplit t, looksTok p = true → isTokMatch p = true := by
    intro p hp hl
    have h2 := List.all_eq_true.mp hclean p hp
    simpa [hl] using h2
  have hr : ∀ p ∈ pyReSplit t, isTokMatch p = true →
      (R (trimIdent p)).isSome = true := by
    intro p hp hm
    have h2 := List.all_eq_true.mp hres p hp
    simpa [hm] using h2
  have hflat : (pyReSplit t).flatten = t := by
    unfold pyReSplit
    simpa using splitTokGo_flatten (le_refl t.length)
  refine ⟨hflat, ?_, ?_⟩
  · intro hno
    have hpieces : pyReSplit t = [t] := by
      unfold pyReSplit
      simpa using splitTokGo_noTok (le_refl t.length) hno
    have hlt : looksTok t = false := by
      cases hlt2 : looksTok t with
      | false => rfl
      | true =>
        have htm := hc t (by rw [hpieces]; exact List.mem_singleton.mpr rfl) hlt2
        rw [isTokMatch_hasTok htm] at hno
        cases hno
    cases t with
    | nil => rfl
    | cons c cs =>
      have htok : tokenize (some (c :: cs)) = pyReSplit (c :: cs) := by
        simp [tokenize]
      show ((tokenize (some (c :: cs))).map (renderPiece R)).flatten = c :: cs
      rw [htok, hpieces]
      simp [renderPiece, hlt]
  · have hrw : ∀ p ∈ pyReSplit t, renderPiece R p = specSubst R p :=
      fun p hp => renderPiece_eq_specSubst (hc p hp) (hr p hp)
    cases t with
    | nil =>
      show ((tokenize (some [])).map (renderPiece R)).flatten = _
      simp [tokenize, pyReSplit, splitTokGo, specSubst, isTokMatch, matchTok]
    | cons c cs =>
      have htok : tokenize (some (c :: cs)) = pyReSplit (c :: cs) := by
        simp [tokenize]
      show ((tokenize (some (c :: cs))).map (renderPiece R)).flatten = _
      rw [htok, List.map_congr_left hrw]

/-- Claim C3, witness for the amended statement: `Hi {{a}}!` against a
unit resolving `a` to `V` renders to the interleaving of its literal
spans with the substituted value. -/
theorem C3_render_roundtrip_witness :
    (pyReSplit "Hi {{a}}!".data).all
      (fun p => !looksTok p || isTokMatch p) = true ∧
    (pyReSplit "Hi {{a}}!".data).all
      (fun p => !isTokMatch p ||
        ((fun cs => if cs = ['a'] then some ['V'] else none)
          (trimIdent p)).isSome) = true ∧
    renderT (some "Hi {{a}}!".data)
        (fun cs => if cs = ['a'] then some ['V'] else none) =
      ((pyReSplit "Hi {{a}}!".data).map
        (specSubst (fun cs => if cs = ['a'] then some ['V'] else none))).flatten ∧
    renderT (some "Hi {{a}}!".data)
        (fun cs => if cs = ['a'] then some ['V'] else none) = "Hi V!".data := by
  refine ⟨by decide, by decide, ?_, by decide⟩
  exact (C3_render_roundtrip _ _ (by decide) (by decide)).2.2

/-! ## Claim C9 -/

theorem find?_map_pres {nb : String} (g : Entry → Entry)
    (hpres : ∀ x : Entry,
      ((g x).name = nb && (g x).isDir) = (x.name = nb && x.isDir)) :
    ∀ root : List Entry,
      (root.map g).find? (fun e => e.name = nb && e.isDir) =
        (root.find? (fun e => e.name = nb && e.isDir)).map g := by
  intro root
  rw [List.find?_map]
  have hfun : ((fun e : Entry => decide (e.name = nb) && e.isDir) ∘ g) =
      (fun e : Entry => decide (e.name = nb) && e.isDir) := by
    funext x
    exact hpres x
  rw [hfun]

theorem findEntry_eraseNoteFile (root : List Entry) (nb note : String) :
    findEntry (eraseNoteFile root nb note) nb =
      (findEntry root nb).map (fun e =>
        if e.name = nb && e.isDir then { e with files := e.files.erase note }
        else e) := by
  unfold findEntry eraseNoteFile
  exact find?_map_pres _ (fun x => by split <;> rfl) root

/-- Claim C9: confirmed deletion of a notebook's only note removes the
note file, and since the directory is then empty, removes the notebook
entry itself and leaves no template subdirectory of its name (removing
it when present, on confirmation); a subsequent `discover` on the new
root therefore omits that notebook. -/
theorem C9_delete_cascade (fs : FS) (nb note : String) (e : Entry)
    (h1 : findEntry fs.root nb = some e) (h2 : e.files = [note]) :
    delete_note fs nb note true true =
      some ⟨removeEntry (eraseNoteFile fs.root nb note) nb,
        if fs.tmpl.contains nb then fs.tmpl.filter (fun t2 => !(t2 = nb))
        else fs.tmpl⟩ ∧
    (removeEntry (eraseNoteFile fs.root nb note) nb).all
      (fun x => !(x.name = nb)) = true ∧
    (if fs.tmpl.contains nb then fs.tmpl.filter (fun t2 => !(t2 = nb))
      else fs.tmpl).contains nb = false ∧
    (discover (removeEntry (eraseNoteFile fs.root nb note) nb) none).all
      (fun x => !(x.name = nb)) = true := by
  have hmatch : (decide (e.name = nb) && e.isDir) = true := by
    have h1b : fs.root.find? (fun x => x.name = nb && x.isDir) = some e := h1
    have hx := List.find?_some h1b
    exact hx
  have hfiles0 : notebookFiles fs.root nb = [note] := by
    unfold notebookFiles
    rw [h1]
    show e.files = [note]
    exact h2
  have hnf : nbFind fs.root nb note = some (nb, note) := by
    unfold nbFind
    rw [hfiles0]
    simp
  have hfe : findEntry (eraseNoteFile fs.root nb note) nb =
      some { e with files := [] } := by
    rw [findEntry_eraseNoteFile, h1]
    show some (if e.name = nb && e.isDir then
      { e with files := e.files.erase note } else e) = _
    rw [if_pos hmatch, h2, List.erase_cons_head]
  have hfiles : notebookFiles (eraseNoteFile fs.root nb note) nb = [] := by
    unfold notebookFiles
    rw [hfe]
  have hall : (removeEntry (eraseNoteFile fs.root nb note) nb).all
      (fun x => !(x.name = nb)) = true := by
    apply List.all_eq_true.mpr
    intro x hx
    exact (List.mem_filter.mp hx).2
  refine ⟨?_, hall, ?_, ?_⟩
  · unfold delete_note
    rw [hnf]
    simp [hfiles]
  · by_cases hc : fs.tmpl.contains nb = true
    · rw [if_pos hc]
      cases hcc : (fs.tmpl.filter (fun t2 => !(t2 = nb))).contains nb with
      | false => rfl
      | true =>
        have hmem : nb ∈ fs.tmpl.filter (fun t2 => !(t2 = nb)) :=
          List.mem_of_elem_eq_true hcc
        have := (List.mem_filter.mp hmem).2
        simp at this
    · rw [if_neg hc]
      simpa using hc
  · apply List.all_eq_true.mpr
    intro x hx
    have hx2 : x ∈ removeEntry (eraseNoteFile fs.root nb note) nb :=
      mem_discover_mem_root hx
    exact (List.mem_filter.mp hx2).2

/-- Claim C9, witness: deleting the single note `n1` of notebook `nb`
(with its template subdirectory present and both confirmations given)
leaves a state with no `nb` entry, no `nb` template subdirectory, and a
discovery that omits `nb`. -/
theorem C9_delete_cascade_witness :
    findEntry exampleFS.root "nb" = some exampleNotebook ∧
    exampleNotebook.files = ["n1"] ∧
    delete_note exampleFS "nb" "n1" true true =
      some ⟨removeEntry (eraseNoteFile exampleFS.root "nb" "n1") "nb",
        if exampleFS.tmpl.contains "nb" then
          exampleFS.tmpl.filter (fun t2 => !(t2 = "nb"))
        else exampleFS.tmpl⟩ ∧
    delete_note exampleFS "nb" "n1" true true = some ⟨[], []⟩ ∧
    (discover (removeEntry (eraseNoteFile exampleFS.root "nb" "n1") "nb")
      none).all (fun x => !(x.name = "nb")) = true := by
  have h := C9_delete_cascade exampleFS "nb" "n1" exampleNotebook
    (by decide) (by decide)
  exact ⟨by decide, by decide, h.1, by decide, h.2.2.2⟩

end Remind
